import Mathlib

/-!
# Verification of the rbxlx-to-rojo instance-tree exporter

A shallow embedding of the core of the exporter (`src/lib.rs`,
`src/filesystem.rs`) and proofs about it.

Modelling conventions:
* Rust `&str` / `String` values are Lean `String`s (a `String` is a list of
  unicode scalar values, matching Rust `char` iteration).
* Filesystem paths are lists of components (`List String`); `Path::join`
  with a single component is `++ [component]`.
* The external reflection database (`rbx_reflection_database`), the two
  service name lists loaded by `include_str!`, and the external XML codec
  (`rbx_xml`) are parameters of the embedding, collected in `Config`.
* A Rust panic (`expect` / `unwrap` on a failure) is `Except.error`;
  functions that cannot panic are total.
-/

/-- Rust `rbx_dom_weak` property values. The exporter only ever distinguishes
`Variant::String` from every other variant (`repr_instance`'s `Source`
lookup), so all non-string variants are collapsed into `other`. -/
inductive Variant where
  | str (s : String)
  | other
deriving DecidableEq, Repr

/-- A node of the instance tree (`rbx_dom_weak::Instance`): referent, class
name, display name, properties, ordered children. The `WeakDom` arena is
represented by embedding children directly; `ref` models `Instance::referent`. -/
inductive Inst where
  | mk (ref : Nat) (className : String) (name : String)
       (props : List (String × Variant)) (children : List Inst)

def Inst.ref : Inst → Nat
  | .mk r _ _ _ _ => r

def Inst.className : Inst → String
  | .mk _ c _ _ _ => c

def Inst.name : Inst → String
  | .mk _ _ n _ _ => n

def Inst.props : Inst → List (String × Variant)
  | .mk _ _ _ p _ => p

def Inst.children : Inst → List Inst
  | .mk _ _ _ _ cs => cs

/-- `is_script_class` (lib.rs:58). -/
def isScriptClass (className : String) : Bool :=
  className = "Script" || className = "LocalScript" || className = "ModuleScript"

/-! ## Path sanitizer (`sanitize_component`, lib.rs:77) -/

/-- `WINDOWS_RESERVED` (lib.rs:53). -/
def WINDOWS_RESERVED : List String :=
  ["con", "prn", "aux", "nul", "com1", "com2", "com3", "com4", "com5", "com6",
   "com7", "com8", "com9",
   "lpt1", "lpt2", "lpt3", "lpt4", "lpt5", "lpt6", "lpt7", "lpt8", "lpt9"]

/-- The characters replaced by `_` in the first match arm of
`sanitize_component`. -/
def forbiddenChar (c : Char) : Bool :=
  c = '<' || c = '>' || c = ':' || c = '"' || c = '/' || c = '\\' ||
  c = '|' || c = '?' || c = '*'

/-- Rust `char::is_control`: the Unicode `Cc` category,
U+0000..U+001F and U+007F..U+009F. -/
def isControlChar (c : Char) : Bool :=
  c.toNat ≤ 31 || (127 ≤ c.toNat && c.toNat ≤ 159)

/-- One step of the sanitizing `map` (lib.rs:80-84). -/
def mapChar (c : Char) : Char :=
  if forbiddenChar c then '_' else if isControlChar c then '_' else c

/-- The `while sanitized.ends_with(' ') || sanitized.ends_with('.') { pop }`
loop (lib.rs:87-89): drop the trailing run of spaces and dots. -/
def stripTrailing : List Char → List Char
  | [] => []
  | c :: cs =>
    match stripTrailing cs with
    | [] => if c = ' ' || c = '.' then [] else [c]
    | r :: rs => c :: r :: rs

/-- Rust `char::to_ascii_lowercase` (as applied bytewise by
`str::to_ascii_lowercase`; non-ASCII scalar values are untouched). -/
def asciiLowerChar (c : Char) : Char :=
  if 'A' ≤ c && c ≤ 'Z' then Char.ofNat (c.toNat + 32) else c

def asciiLower (s : String) : String :=
  String.mk (s.data.map asciiLowerChar)

/-- The `sanitized` local of `sanitize_component` right after the character
map (lib.rs:78-85). -/
def sanitizeMapped (name : String) : List Char :=
  name.data.map mapChar

/-- The `sanitized` local after the trailing-space/dot strip (lib.rs:87-89). -/
def sanitizeStripped (name : String) : List Char :=
  stripTrailing (sanitizeMapped name)

/-- The `sanitized` local after the empty-string substitution (lib.rs:91-93). -/
def sanitizedOf (name : String) : List Char :=
  if (sanitizeStripped name).isEmpty then ['_'] else sanitizeStripped name

/-- `sanitize_component` (lib.rs:77-101). -/
def sanitize_component (name : String) : String :=
  if asciiLower (String.mk (sanitizedOf name)) ∈ WINDOWS_RESERVED
  then String.mk ('_' :: sanitizedOf name)
  else String.mk (sanitizedOf name)

/-- `sanitized_join` (lib.rs:103). -/
def sanitized_join (base : List String) (name : String) : List String :=
  base ++ [sanitize_component name]

/-! ## Script-containment analyzer (`check_has_scripts`, lib.rs:484-508) -/

/-- The `HashMap<Ref, bool>` passed through `check_has_scripts`, as a map
from referents to optional booleans. -/
def CMap : Type := Nat → Option Bool

def CMap.empty : CMap := fun _ => none

/-- `HashMap::insert`. -/
def CMap.insert (m : CMap) (k : Nat) (v : Bool) : CMap :=
  fun k' => if k' = k then some v else m k'

mutual
/-- `check_has_scripts` (lib.rs:484-508): post-order pass over the tree.
Returns the node's own containment bit together with the updated map
(`has_scripts` is threaded through as state). -/
def check_has_scripts (i : Inst) (m : CMap) : Bool × CMap :=
  match i with
  | .mk r c _ _ cs =>
    let p := checkForest cs m
    let result := if isScriptClass c then true else p.1
    (result, p.2.insert r result)

/-- The `for child_id in instance.children()` loop of `check_has_scripts`,
accumulating `children_have_scripts` with `||`. -/
def checkForest (l : List Inst) (m : CMap) : Bool × CMap :=
  match l with
  | [] => (false, m)
  | i :: is =>
    let p := check_has_scripts i m
    let q := checkForest is p.2
    (p.1 || q.1, q.2)
end

mutual
/-- Specification: a node's subtree (itself included) contains a
script-class node. -/
def subtreeHasScripts : Inst → Bool
  | .mk _ c _ _ cs => isScriptClass c || forestHasScripts cs

def forestHasScripts : List Inst → Bool
  | [] => false
  | i :: is => subtreeHasScripts i || forestHasScripts is
end

mutual
/-- All nodes of a subtree, the root included. -/
def allNodes : Inst → List Inst
  | .mk r c n p cs => .mk r c n p cs :: allNodesForest cs

def allNodesForest : List Inst → List Inst
  | [] => []
  | i :: is => allNodes i ++ allNodesForest is
end

/-- The referents occurring in a subtree. `WeakDom` guarantees these are
pairwise distinct, which enters the theorems as a `Nodup` hypothesis. -/
def refsOf (i : Inst) : List Nat := (allNodes i).map Inst.ref

def refsForest (l : List Inst) : List Nat := (allNodesForest l).map Inst.ref

/-! ## Output data model (`structures.rs`, not present under `src/`) -/

/-- `MetaFile` from `structures.rs`: the `init.meta.json` sidecar payload
(spec §3: optional class-name override, ignore-unknown-instances flag). -/
structure MetaFile where
  className : Option String
  ignoreUnknownInstances : Bool
deriving DecidableEq, Repr

/-- `TreePartition` from `structures.rs` (spec §3): class name, name-keyed
child partitions, ignore-unknown flag, optional explicit on-disk path. -/
inductive TreePartition where
  | mk (className : String) (children : List (String × TreePartition))
       (ignoreUnknownInstances : Bool) (path : Option (List String))

def TreePartition.className : TreePartition → String
  | .mk c _ _ _ => c

def TreePartition.children : TreePartition → List (String × TreePartition)
  | .mk _ ch _ _ => ch

def TreePartition.ignoreUnknownInstances : TreePartition → Bool
  | .mk _ _ ig _ => ig

def TreePartition.path : TreePartition → Option (List String)
  | .mk _ _ _ p => p

def TreePartition.withPath (t : TreePartition) (p : Option (List String)) : TreePartition :=
  match t with
  | .mk c ch ig _ => .mk c ch ig p

/-- Contents of an emitted file. The two external serializers
(`serde_json::to_string_pretty` on a `MetaFile`, and the `rbx_xml` encoder)
are kept symbolic: both are injective renderings of the tagged payload. -/
inductive FileContents where
  | bytes (s : String)
  | metaJson (m : MetaFile)
  | blob (b : List Nat)
deriving DecidableEq, Repr

/-- `Instruction` from `structures.rs` (spec §3). -/
inductive Instruction where
  | createFile (filename : List String) (contents : FileContents)
  | createFolder (folder : List String)
  | addToTree (name : String) (partition : TreePartition)

/-- Modelled from the spec: `Instruction::partition` from the missing
`structures.rs`. Spec §4.3 (special-cased node): "each wrapped via the same
partition-construction rule used for TreePartition", i.e. class name, empty
children, ignore-unknown = true, the given path. -/
def Instruction.partitionOf (child : Inst) (path : List String) : TreePartition :=
  .mk child.className [] true (some path)

/-- Modelled from the spec: `Instruction::add_to_tree` from the missing
`structures.rs`. Spec §4.3 (service row): "emit `AddToTree(name,
TreePartition{class, empty children, ignore-unknown=true, path=new_base})`". -/
def Instruction.add_to_tree (child : Inst) (path : List String) : Instruction :=
  .addToTree child.name (Instruction.partitionOf child path)

/-- The constant `MetaFile` value serialized by `repr_instance`
(lib.rs:176-180 and 228-237): no class override, ignore-unknown = true. -/
def defaultMeta : MetaFile := ⟨none, true⟩

/-! ## External collaborators -/

/-- What `rbx_reflection` reports for one class: whether its tag list
contains `ClassTag::Service`. -/
structure ReflClass where
  isService : Bool

/-- The reflection database's class lookup (`db.classes.get`). -/
def ReflDb : Type := String → Option ReflClass

/-- Parameters of a run: `rbx_reflection_database::get()` (`none` models the
lookup being unavailable), the `RESPECTED_SERVICES` and `NON_TREE_SERVICES`
sets (their `include_str!` text files are not under `src/`), and the
`rbx_xml` encoder (`none` models an encode failure). -/
structure Config where
  db : Option ReflDb
  respected : String → Bool
  nonTree : String → Bool
  encode : Inst → Option (List Nat)

/-- `should_skip_service` (lib.rs:62-75). When the database is unavailable
it warns and returns `false`; a class missing from the database is not
skipped. -/
def should_skip_service (cfg : Config) (class_name : String) : Bool :=
  match cfg.db with
  | none => false
  | some db =>
    match db class_name with
    | some reflected => reflected.isService && !(cfg.respected class_name)
    | none => false

/-! ## Representation resolver (`repr_instance`, lib.rs:152-380) -/

/-- `ExportMode` (lib.rs:28-31). -/
inductive ExportMode where
  | full
  | scriptsOnly
deriving DecidableEq, Repr

/-- `ChildTraversal` (lib.rs:41-45). -/
inductive ChildTraversal where
  | normal
  | scriptsOnly
  | skip
deriving DecidableEq, Repr

/-- `Representation` (lib.rs:47-51); named `NodeRepresentation` here because
Mathlib already uses `Representation`. -/
structure NodeRepresentation where
  instructions : List Instruction
  path : List String
  traversal : ChildTraversal

mutual
/-- `clone_without_scripts` (lib.rs:107-132): deep-copy a subtree, dropping
every script-class node with its whole subtree. The clone lives in a fresh
`WeakDom`, so its referents are fresh; they are irrelevant to the codec and
set to 0 here. -/
def clone_without_scripts : Inst → Option Inst
  | .mk _ c n p cs =>
    if isScriptClass c then none
    else some (.mk 0 c n p (cloneForest cs))

/-- The `for child_ref in instance.children()` loop of
`clone_without_scripts`; a `none` result is simply not attached. -/
def cloneForest : List Inst → List Inst
  | [] => []
  | i :: is =>
    match clone_without_scripts i with
    | none => cloneForest is
    | some j => j :: cloneForest is
end

/-- `serialize_instance_to_rbxm` (lib.rs:134-151): clone the subtree without
scripts and hand it to the external `rbx_xml` encoder; `none` (logged in the
code) if the instance is itself a script or the encoder fails. -/
def serialize_instance_to_rbxm (cfg : Config) (child : Inst) : Option (List Nat) :=
  match clone_without_scripts child with
  | none => none
  | some cloned => cfg.encode cloned

/-- The extension match of the script arm (lib.rs:193-198); callers guard
with `isScriptClass`, making the `unreachable!` arm truly unreachable. -/
def scriptExtension (c : String) : String :=
  if c = "Script" then ".server.luau"
  else if c = "LocalScript" then ".client.luau"
  else ".luau"

/-- The `Source` property read of the script arm (lib.rs:200-213): missing
or mis-typed source degrades to empty content with a logged warning. -/
def sourceOf (child : Inst) : String :=
  match child.props.lookup "Source" with
  | some (.str v) => v
  | some _ => ""
  | none => ""

/-- The shared tail of `repr_instance`'s generic-class arm (lib.rs:348-377),
reached when the class is absent from the reflection database or not tagged
as a service. Note the `?` on `serialize_instance_to_rbxm` (lib.rs:362):
an encode failure makes the whole representation `none`. -/
def repr_generic (cfg : Config) (base : List String) (child : Inst)
    (contains_scripts : Bool) (mode : ExportMode) : Option NodeRepresentation :=
  if mode = .scriptsOnly && !contains_scripts then none
  else
    let folder_path := sanitized_join base child.name
    if contains_scripts then
      match mode with
      | .scriptsOnly => some ⟨[.createFolder folder_path], folder_path, .scriptsOnly⟩
      | .full =>
        match serialize_instance_to_rbxm cfg child with
        | none => none
        | some model_bytes =>
          some ⟨[.createFolder folder_path,
                 .createFile (folder_path ++ ["init.rbxmx"]) (.blob model_bytes)],
                folder_path, .scriptsOnly⟩
    else
      some ⟨[.createFolder folder_path], folder_path, .skip⟩

/-- `repr_instance` (lib.rs:152-380). The `Except` layer models the panic
`rbx_reflection_database::get().expect(..)` (lib.rs:310): unlike
`should_skip_service`, the generic-class arm aborts the run when the
reflection database is unavailable. -/
def repr_instance (cfg : Config) (base : List String) (child : Inst)
    (has_scripts : CMap) (mode : ExportMode) :
    Except String (Option NodeRepresentation) :=
  let contains_scripts := (has_scripts child.ref).getD false
  if child.className = "Folder" then
    if mode = .scriptsOnly && !contains_scripts then .ok none
    else
      let folder_path := sanitized_join base child.name
      .ok (some ⟨[.createFolder folder_path,
                  .createFile (folder_path ++ ["init.meta.json"]) (.metaJson defaultMeta)],
                 folder_path, .normal⟩)
  else if isScriptClass child.className then
    let extension := scriptExtension child.className
    let source := sourceOf child
    if child.children.isEmpty then
      .ok (some ⟨[.createFile (sanitized_join base (child.name ++ extension))
                    (.bytes source)],
                 base, .skip⟩)
    else
      let script_children_count :=
        (child.children.filter (fun c => has_scripts c.ref == some true)).length
      let total_children_count := child.children.length
      let folder_path := sanitized_join base child.name
      if script_children_count = total_children_count then
        .ok (some ⟨[.createFolder folder_path,
                    .createFile (folder_path ++ ["init" ++ extension ++ ".lua"])
                      (.bytes source)],
                   folder_path, .normal⟩)
      else if script_children_count = 0 then
        .ok (some ⟨[.createFolder folder_path,
                    .createFile (folder_path ++ ["init" ++ extension ++ ".lua"])
                      (.bytes source),
                    .createFile (folder_path ++ ["init.meta.json"])
                      (.metaJson defaultMeta)],
                   folder_path, .normal⟩)
      else
        .ok (some ⟨[.createFolder folder_path,
                    .createFile (folder_path ++ ["init" ++ extension ++ ".lua"])
                      (.bytes source),
                    .createFile (folder_path ++ ["init.meta.json"])
                      (.metaJson defaultMeta)],
                   folder_path, .normal⟩)
  else
    match cfg.db with
    | none => .error "couldn't get reflection database"
    | some db =>
      match db child.className with
      | some reflected =>
        if reflected.isService then
          if mode = .scriptsOnly && !contains_scripts then .ok none
          else if !(cfg.respected child.className) then .ok none
          else
            let new_base := sanitized_join base child.name
            let instructions :=
              (if cfg.nonTree child.className then []
               else [Instruction.add_to_tree child new_base]) ++
              [.createFolder new_base]
            .ok (some ⟨instructions, new_base, .normal⟩)
        else .ok (repr_generic cfg base child contains_scripts mode)
      | none => .ok (repr_generic cfg base child contains_scripts mode)

/-! ## Tree walker (`TreeIterator::visit_instructions`, lib.rs:382-481) -/

/-- The `StarterPlayer` special case (lib.rs:416-451): a folder plus an
explicit `AddToTree` whose partition has `path = None` and one child
partition per direct child. -/
def starterPlayerRep (path : List String) (child : Inst) : NodeRepresentation :=
  let folder_path := sanitized_join path child.name
  ⟨[.createFolder folder_path,
    .addToTree child.name
      (.mk child.className
        (child.children.map (fun c =>
          (c.name, Instruction.partitionOf c (sanitized_join folder_path c.name))))
        true
        none)],
   folder_path, .normal⟩

mutual
/-- `TreeIterator::visit_instructions` (lib.rs:383-481): visit the children
of `inst` in order, concatenating the instructions each child sends to the
sink. `Except.error` propagates the resolver's panic. -/
def visit_instructions (cfg : Config) (path : List String) (mode : ExportMode)
    (has_scripts : CMap) : Inst → Bool → Except String (List Instruction)
  | .mk _ _ _ _ cs, scripts_only => visitForest cfg path mode has_scripts cs scripts_only

/-- The `for child_id in instance.children()` loop (lib.rs:389-480). Each
iteration: the ScriptsOnly containment skip, the sticky scripts-only
recursion, the service skip, the `StarterPlayer` special case, resolver
dispatch, then recursion per the returned traversal mode. (`visitChild`
below restates one iteration standalone; `visitForest_cons` proves the two
agree.) -/
def visitForest (cfg : Config) (path : List String) (mode : ExportMode)
    (has_scripts : CMap) : List Inst → Bool → Except String (List Instruction)
  | [], _ => .ok []
  | child :: rest, scripts_only =>
    match (if mode = .scriptsOnly && !((has_scripts child.ref).getD false) then .ok []
           else if scripts_only && !(isScriptClass child.className) then
             if (has_scripts child.ref).getD false then
               visit_instructions cfg (sanitized_join path child.name) mode has_scripts
                 child true
             else .ok []
           else if should_skip_service cfg child.className then .ok []
           else
             match (if child.className = "StarterPlayer"
                    then Except.ok (some (starterPlayerRep path child))
                    else repr_instance cfg path child has_scripts mode) with
             | .error e => .error e
             | .ok none => .ok []
             | .ok (some rep) =>
               match (match rep.traversal with
                      | .normal =>
                        visit_instructions cfg rep.path mode has_scripts child scripts_only
                      | .scriptsOnly =>
                        visit_instructions cfg rep.path mode has_scripts child true
                      | .skip => Except.ok []) with
               | .error e => .error e
               | .ok tail => .ok (rep.instructions ++ tail)) with
    | .error e => .error e
    | .ok head =>
      match visitForest cfg path mode has_scripts rest scripts_only with
      | .error e => .error e
      | .ok tail => .ok (head ++ tail)
end

/-- One iteration of the walker's loop (lib.rs:389-480), standalone: exactly
the per-child computation inlined in `visitForest`. -/
def visitChild (cfg : Config) (path : List String) (mode : ExportMode)
    (has_scripts : CMap) (child : Inst) (scripts_only : Bool) :
    Except String (List Instruction) :=
  if mode = .scriptsOnly && !((has_scripts child.ref).getD false) then .ok []
  else if scripts_only && !(isScriptClass child.className) then
    if (has_scripts child.ref).getD false then
      visit_instructions cfg (sanitized_join path child.name) mode has_scripts child true
    else .ok []
  else if should_skip_service cfg child.className then .ok []
  else
    match (if child.className = "StarterPlayer"
           then Except.ok (some (starterPlayerRep path child))
           else repr_instance cfg path child has_scripts mode) with
    | .error e => .error e
    | .ok none => .ok []
    | .ok (some rep) =>
      match (match rep.traversal with
             | .normal =>
               visit_instructions cfg rep.path mode has_scripts child scripts_only
             | .scriptsOnly =>
               visit_instructions cfg rep.path mode has_scripts child true
             | .skip => Except.ok []) with
      | .error e => .error e
      | .ok tail => .ok (rep.instructions ++ tail)

/-- `process_instructions` (lib.rs:510-531): the containment pass over the
whole tree, then the walk starting at the root (the root instance itself is
never represented); the stream is handed to the sink in order. -/
def process_instructions (cfg : Config) (tree : Inst) (mode : ExportMode) :
    Except String (List Instruction) :=
  visit_instructions cfg [] mode (check_has_scripts tree CMap.empty).2 tree false

/-! ## Filesystem sink (`FileSystem`, filesystem.rs) -/

/-- Decimal digits of `n`, most significant first, as Rust
`format!("{}", counter)` renders an integer. Structural fuel (`n + 1`
always suffices) keeps it kernel-reducible. -/
def natToDigits : Nat → Nat → List Char → List Char
  | 0, _, acc => acc
  | fuel + 1, n, acc =>
    if n < 10 then Nat.digitChar (n % 10) :: acc
    else natToDigits fuel (n / 10) (Nat.digitChar (n % 10) :: acc)

def natRepr (n : Nat) : String := String.mk (natToDigits (n + 1) n [])

/-- `format!("{}_{}", original, counter)` (filesystem.rs:73). -/
def candidateName (original : String) (counter : Nat) : String :=
  original ++ "_" ++ natRepr counter

/-- `Project.tree` (filesystem.rs:28): the manifest under construction, a
`BTreeMap<String, TreePartition>` as an association list with
`BTreeMap::insert` (replace-or-add) semantics; key order is irrelevant to
every lookup. -/
abbrev ProjTree : Type := List (String × TreePartition)

def ProjTree.containsKey (t : ProjTree) (k : String) : Bool :=
  t.any (fun kv => kv.1 = k)

def ProjTree.insert (t : ProjTree) (k : String) (v : TreePartition) : ProjTree :=
  if ProjTree.containsKey t k then t.map (fun kv => if kv.1 = k then (k, v) else kv)
  else t ++ [(k, v)]

def ProjTree.find? (t : ProjTree) (k : String) : Option TreePartition :=
  (List.find? (fun kv => kv.1 = k) t).map (fun kv => kv.2)

/-- The collision loop of `FileSystem::read_instruction`
(filesystem.rs:71-79): the first counter, starting at `counter`, whose
candidate name is not a key. Fueled by the entry count, which always
suffices (see `freshCounterAux_found`). -/
def freshCounterAux (t : ProjTree) (original : String) : Nat → Nat → Nat
  | 0, counter => counter
  | fuel + 1, counter =>
    if ProjTree.containsKey t (candidateName original counter)
    then freshCounterAux t original fuel (counter + 1)
    else counter

def freshCounter (t : ProjTree) (original : String) : Nat :=
  freshCounterAux t original t.length 2

/-- `path.parent()` then `.join(name)`, or `PathBuf::from(name)` when there
is no parent (filesystem.rs:81-87): replace the final path component. -/
def replaceLastComponent (p : List String) (name : String) : List String :=
  match p with
  | [] => [name]
  | _ :: _ => p.dropLast ++ [name]

/-- `SRC` (filesystem.rs:10): the fixed source subdirectory name. -/
def SRC : String := "src"

/-- `PathBuf::from(SRC).join(path)` applied to an optional path
(filesystem.rs:90-98). -/
def srcPrefix : Option (List String) → Option (List String)
  | none => none
  | some p => some (SRC :: p)

/-- The direct-children prefixing loop (filesystem.rs:94-98). -/
def TreePartition.prefixChildren : TreePartition → TreePartition
  | .mk c ch ig p =>
    .mk c (ch.map (fun kv => (kv.1, kv.2.withPath (srcPrefix kv.2.path)))) ig p

/-- The `AddToTree` arm of `FileSystem::read_instruction`
(filesystem.rs:65-101): disambiguate a colliding name with `_2`, `_3`, …,
rewrite the colliding partition's final path component, prefix the
partition's path and its direct children's paths with `src`, insert. -/
def fsAddToTree (t : ProjTree) (name : String) (partition : TreePartition) : ProjTree :=
  let np : String × TreePartition :=
    if ProjTree.containsKey t name then
      let newName := candidateName name (freshCounter t name)
      (newName,
       match partition.path with
       | some p => partition.withPath (some (replaceLastComponent p newName))
       | none => partition)
    else (name, partition)
  let part := (np.2.withPath (srcPrefix np.2.path)).prefixChildren
  ProjTree.insert t np.1 part

/-- `FileSystem::read_instruction` (filesystem.rs:63-126) restricted to the
manifest state: the `CreateFile`/`CreateFolder` arms only perform disk I/O
and never touch `project.tree`. -/
def fsReadInstruction (t : ProjTree) : Instruction → ProjTree
  | .addToTree name partition => fsAddToTree t name partition
  | .createFile _ _ => t
  | .createFolder _ => t

/-- Folding a whole instruction stream into the manifest (the sink's
`read_instructions` loop). -/
def fsReadAll (t : ProjTree) : List Instruction → ProjTree
  | [] => t
  | i :: is => fsReadAll (fsReadInstruction t i) is

/-! ## Theorems

### Sanitizer lemmas -/

theorem mapChar_ok (c : Char) :
    forbiddenChar (mapChar c) = false ∧ isControlChar (mapChar c) = false := by
  unfold mapChar
  by_cases h1 : forbiddenChar c = true
  · rw [if_pos h1]
    exact ⟨by decide, by decide⟩
  · rw [if_neg h1]
    by_cases h2 : isControlChar c = true
    · rw [if_pos h2]
      exact ⟨by decide, by decide⟩
    · rw [if_neg h2]
      exact ⟨by simpa using h1, by simpa using h2⟩

theorem stripTrailing_sublist (l : List Char) : (stripTrailing l).Sublist l := by
  induction l with
  | nil => simp [stripTrailing]
  | cons c cs ih =>
    simp only [stripTrailing]
    cases h : stripTrailing cs with
    | nil =>
      by_cases hc : (c = ' ' || c = '.')
      · simp [hc]
      · simp [hc]
    | cons r rs =>
      rw [h] at ih
      exact ih.cons₂ c

theorem stripTrailing_getLast? (l : List Char) :
    (stripTrailing l).getLast? ≠ some ' ' ∧ (stripTrailing l).getLast? ≠ some '.' := by
  induction l with
  | nil => simp [stripTrailing]
  | cons c cs ih =>
    simp only [stripTrailing]
    cases h : stripTrailing cs with
    | nil =>
      by_cases hc : (c = ' ' || c = '.')
      · simp [hc]
      · simp only [hc, if_neg]
        simp only [Bool.or_eq_true, decide_eq_true_eq] at hc
        push_neg at hc
        simp [List.getLast?, hc.1, hc.2]
    | cons r rs =>
      rw [h] at ih
      simpa [List.getLast?_cons_cons] using ih

/-- If a list does not end in a space or dot, `stripTrailing` leaves it
unchanged. -/
theorem stripTrailing_eq_self (l : List Char)
    (h1 : l.getLast? ≠ some ' ') (h2 : l.getLast? ≠ some '.') :
    stripTrailing l = l := by
  induction l with
  | nil => rfl
  | cons c cs ih =>
    simp only [stripTrailing]
    cases hcs : cs with
    | nil =>
      subst hcs
      simp only [List.getLast?_singleton] at h1 h2
      have hc : ¬ (c = ' ' || c = '.') := by
        simp only [Bool.or_eq_true, decide_eq_true_eq]
        rintro (rfl | rfl) <;> simp at h1 h2
      simp [stripTrailing, hc]
    | cons d ds =>
      rw [← hcs]
      have hlast : cs.getLast? = (c :: cs).getLast? := by
        rw [hcs, List.getLast?_cons_cons]
      have ihcs : stripTrailing cs = cs := by
        apply ih <;> rw [hlast] <;> assumption
      rw [ihcs, hcs]

theorem asciiLowerChar_underscore : asciiLowerChar '_' = '_' := by decide

/-- No reserved device name starts with an underscore. -/
theorem reserved_no_underscore :
    ∀ w ∈ WINDOWS_RESERVED, w.data.head? ≠ some '_' := by decide

theorem mapChar_eq_self (c : Char) (h1 : forbiddenChar c = false)
    (h2 : isControlChar c = false) : mapChar c = c := by
  unfold mapChar
  rw [if_neg (by simp [h1]), if_neg (by simp [h2])]

theorem sanitizedOf_ok (s : String) :
    ∀ c ∈ sanitizedOf s, forbiddenChar c = false ∧ isControlChar c = false := by
  intro c hc
  unfold sanitizedOf at hc
  by_cases he : (sanitizeStripped s).isEmpty
  · rw [if_pos he] at hc
    simp only [List.mem_singleton] at hc
    subst hc
    exact ⟨by decide, by decide⟩
  · rw [if_neg he] at hc
    have hmem : c ∈ sanitizeMapped s :=
      (stripTrailing_sublist (sanitizeMapped s)).subset hc
    unfold sanitizeMapped at hmem
    obtain ⟨a, _, rfl⟩ := List.mem_map.mp hmem
    exact mapChar_ok a

theorem sanitizedOf_ne_nil (s : String) : sanitizedOf s ≠ [] := by
  unfold sanitizedOf
  by_cases he : (sanitizeStripped s).isEmpty
  · rw [if_pos he]; simp
  · rw [if_neg he]; simpa [List.isEmpty_iff] using he

theorem sanitizedOf_getLast? (s : String) :
    (sanitizedOf s).getLast? ≠ some ' ' ∧ (sanitizedOf s).getLast? ≠ some '.' := by
  unfold sanitizedOf
  by_cases he : (sanitizeStripped s).isEmpty
  · rw [if_pos he]
    constructor <;> decide
  · rw [if_neg he]
    exact stripTrailing_getLast? (sanitizeMapped s)

theorem getLast?_cons_ne_nil {α} (a : α) {l : List α} (h : l ≠ []) :
    (a :: l).getLast? = l.getLast? := by
  cases l with
  | nil => exact absurd rfl h
  | cons b bs => simp [List.getLast?_cons_cons]

theorem sanitize_component_props (s : String) :
    (sanitize_component s).data ≠ [] ∧
    (∀ c ∈ (sanitize_component s).data,
        forbiddenChar c = false ∧ isControlChar c = false) ∧
    (sanitize_component s).data.getLast? ≠ some ' ' ∧
    (sanitize_component s).data.getLast? ≠ some '.' ∧
    asciiLower (sanitize_component s) ∉ WINDOWS_RESERVED := by
  unfold sanitize_component
  by_cases hres : asciiLower (String.mk (sanitizedOf s)) ∈ WINDOWS_RESERVED
  · rw [if_pos hres]
    refine ⟨by simp, ?_, ?_, ?_, ?_⟩
    · intro c hc
      rcases List.mem_cons.mp hc with rfl | hc
      · exact ⟨by decide, by decide⟩
      · exact sanitizedOf_ok s c hc
    · show ('_' :: sanitizedOf s).getLast? ≠ some ' '
      rw [getLast?_cons_ne_nil _ (sanitizedOf_ne_nil s)]
      exact (sanitizedOf_getLast? s).1
    · show ('_' :: sanitizedOf s).getLast? ≠ some '.'
      rw [getLast?_cons_ne_nil _ (sanitizedOf_ne_nil s)]
      exact (sanitizedOf_getLast? s).2
    · intro hmem
      have h2 := reserved_no_underscore _ hmem
      apply h2
      show (('_' :: sanitizedOf s).map asciiLowerChar).head? = some '_'
      simp [asciiLowerChar_underscore]
  · rw [if_neg hres]
    exact ⟨sanitizedOf_ne_nil s, sanitizedOf_ok s, (sanitizedOf_getLast? s).1,
           (sanitizedOf_getLast? s).2, hres⟩

/-- An already-safe string is a fixed point of `sanitize_component`. -/
theorem sanitize_component_eq_self (r : String)
    (hne : r.data ≠ [])
    (hok : ∀ c ∈ r.data, forbiddenChar c = false ∧ isControlChar c = false)
    (hl1 : r.data.getLast? ≠ some ' ') (hl2 : r.data.getLast? ≠ some '.')
    (hres : asciiLower r ∉ WINDOWS_RESERVED) :
    sanitize_component r = r := by
  have hmap : sanitizeMapped r = r.data := by
    unfold sanitizeMapped
    calc r.data.map mapChar
        = r.data.map id :=
          List.map_congr_left (fun c hc => mapChar_eq_self c (hok c hc).1 (hok c hc).2)
      _ = r.data := List.map_id _
  have hstrip : sanitizeStripped r = r.data := by
    unfold sanitizeStripped
    rw [hmap]
    exact stripTrailing_eq_self _ hl1 hl2
  have hsanz : sanitizedOf r = r.data := by
    unfold sanitizedOf
    rw [hstrip, if_neg (by simpa [List.isEmpty_iff] using hne)]
  have hmk : String.mk r.data = r := rfl
  unfold sanitize_component
  rw [hsanz, hmk, if_neg hres]

/-- C3: for every input string, `sanitize_component` is total (it is a Lean
function) and returns a non-empty component that contains none of the
forbidden characters `< > : " / \ | ? *` and no control character, does not
end with a space or a dot, and is never case-insensitively a reserved
device name (`con, prn, aux, nul, com1..9, lpt1..9`). -/
theorem sanitize_component_safe (s : String) :
    (sanitize_component s).data ≠ [] ∧
    (∀ c ∈ (sanitize_component s).data,
        forbiddenChar c = false ∧ isControlChar c = false) ∧
    (sanitize_component s).data.getLast? ≠ some ' ' ∧
    (sanitize_component s).data.getLast? ≠ some '.' ∧
    asciiLower (sanitize_component s) ∉ WINDOWS_RESERVED :=
  sanitize_component_props s

/-- C10: `sanitize_component` is idempotent: sanitizing an already sanitized
name returns it unchanged. -/
theorem sanitize_component_idempotent (s : String) :
    sanitize_component (sanitize_component s) = sanitize_component s := by
  obtain ⟨hne, hok, hl1, hl2, hres⟩ := sanitize_component_props s
  exact sanitize_component_eq_self _ hne hok hl1 hl2 hres

/-! ### Containment analyzer lemmas -/

@[simp] theorem Inst.ref_mk (r : Nat) (c n : String) (p : List (String × Variant))
    (cs : List Inst) : (Inst.mk r c n p cs).ref = r := rfl

@[simp] theorem Inst.className_mk (r : Nat) (c n : String) (p : List (String × Variant))
    (cs : List Inst) : (Inst.mk r c n p cs).className = c := rfl

@[simp] theorem Inst.name_mk (r : Nat) (c n : String) (p : List (String × Variant))
    (cs : List Inst) : (Inst.mk r c n p cs).name = n := rfl

@[simp] theorem Inst.props_mk (r : Nat) (c n : String) (p : List (String × Variant))
    (cs : List Inst) : (Inst.mk r c n p cs).props = p := rfl

@[simp] theorem Inst.children_mk (r : Nat) (c n : String) (p : List (String × Variant))
    (cs : List Inst) : (Inst.mk r c n p cs).children = cs := rfl

@[simp] theorem allNodes_mk (r : Nat) (c n : String) (p : List (String × Variant))
    (cs : List Inst) :
    allNodes (.mk r c n p cs) = .mk r c n p cs :: allNodesForest cs := rfl

@[simp] theorem allNodesForest_nil : allNodesForest [] = [] := rfl

@[simp] theorem allNodesForest_cons (i : Inst) (is : List Inst) :
    allNodesForest (i :: is) = allNodes i ++ allNodesForest is := rfl

@[simp] theorem refsOf_mk (r : Nat) (c n : String) (p : List (String × Variant))
    (cs : List Inst) : refsOf (.mk r c n p cs) = r :: refsForest cs := by
  simp [refsOf, refsForest]

@[simp] theorem refsForest_nil : refsForest [] = [] := rfl

@[simp] theorem refsForest_cons (i : Inst) (is : List Inst) :
    refsForest (i :: is) = refsOf i ++ refsForest is := by
  simp [refsOf, refsForest]

theorem check_fst : ∀ (i : Inst) (m : CMap),
    (check_has_scripts i m).1 = subtreeHasScripts i := by
  refine check_has_scripts.induct
    (fun i m => (check_has_scripts i m).1 = subtreeHasScripts i)
    (fun l m => (checkForest l m).1 = forestHasScripts l) ?_ ?_ ?_
  · intro m r c nm pr cs ih
    simp only [check_has_scripts, subtreeHasScripts]
    rw [ih]
    cases h : isScriptClass c <;> simp
  · intro m
    rfl
  · intro m i is p ih1 ih2
    have ih2' : (checkForest is (check_has_scripts i m).2).1 = forestHasScripts is := ih2
    simp only [checkForest, forestHasScripts]
    rw [ih1, ih2']

theorem checkForest_fst (l : List Inst) (m : CMap) :
    (checkForest l m).1 = forestHasScripts l := by
  induction l generalizing m with
  | nil => rfl
  | cons i is ih =>
    simp only [checkForest, forestHasScripts]
    rw [check_fst, ih]

theorem check_frame : ∀ (i : Inst) (m : CMap), ∀ k ∉ refsOf i,
    (check_has_scripts i m).2 k = m k := by
  refine check_has_scripts.induct
    (fun i m => ∀ k ∉ refsOf i, (check_has_scripts i m).2 k = m k)
    (fun l m => ∀ k ∉ refsForest l, (checkForest l m).2 k = m k) ?_ ?_ ?_
  · intro m r c nm pr cs ih k hk
    rw [refsOf_mk, List.mem_cons] at hk
    push_neg at hk
    simp only [check_has_scripts, CMap.insert]
    rw [if_neg hk.1]
    exact ih k hk.2
  · intro m k _
    rfl
  · intro m i is p ih1 ih2 k hk
    rw [refsForest_cons, List.mem_append] at hk
    push_neg at hk
    have ih2' : ∀ k ∉ refsForest is,
        (checkForest is (check_has_scripts i m).2).2 k = (check_has_scripts i m).2 k := ih2
    simp only [checkForest]
    rw [ih2' k hk.2, ih1 k hk.1]

theorem checkForest_frame (l : List Inst) (m : CMap) : ∀ k ∉ refsForest l,
    (checkForest l m).2 k = m k := by
  induction l generalizing m with
  | nil => intro k _; rfl
  | cons i is ih =>
    intro k hk
    rw [refsForest_cons, List.mem_append] at hk
    push_neg at hk
    simp only [checkForest]
    rw [ih _ k hk.2, check_frame i m k hk.1]

theorem mem_refsForest_of_mem (n : Inst) (l : List Inst) (hn : n ∈ allNodesForest l) :
    n.ref ∈ refsForest l :=
  List.mem_map_of_mem Inst.ref hn

theorem check_map_spec : ∀ (i : Inst) (m : CMap), (refsOf i).Nodup →
    ∀ n ∈ allNodes i, (check_has_scripts i m).2 n.ref = some (subtreeHasScripts n) := by
  refine check_has_scripts.induct
    (fun i m => (refsOf i).Nodup →
      ∀ n ∈ allNodes i, (check_has_scripts i m).2 n.ref = some (subtreeHasScripts n))
    (fun l m => (refsForest l).Nodup →
      ∀ n ∈ allNodesForest l, (checkForest l m).2 n.ref = some (subtreeHasScripts n)) ?_ ?_ ?_
  · intro m r c nm pr cs ih hnd n hn
    rw [refsOf_mk, List.nodup_cons] at hnd
    rw [allNodes_mk, List.mem_cons] at hn
    rcases hn with rfl | hn
    · simp only [check_has_scripts, CMap.insert, Inst.ref_mk, if_pos rfl]
      rw [checkForest_fst]
      simp only [subtreeHasScripts]
      cases h : isScriptClass c <;> simp
    · have hne : n.ref ≠ r := by
        intro he
        exact hnd.1 (he ▸ mem_refsForest_of_mem n cs hn)
      simp only [check_has_scripts, CMap.insert, if_neg hne]
      exact ih hnd.2 n hn
  · intro m _ n hn
    simp at hn
  · intro m i is p ih1 ih2 hnd n hn
    rw [refsForest_cons, List.nodup_append] at hnd
    rw [allNodesForest_cons, List.mem_append] at hn
    have ih2' : (refsForest is).Nodup →
        ∀ n ∈ allNodesForest is,
          (checkForest is (check_has_scripts i m).2).2 n.ref
            = some (subtreeHasScripts n) := ih2
    simp only [checkForest]
    rcases hn with hn | hn
    · have hnot : n.ref ∉ refsForest is := by
        intro hmem
        exact hnd.2.2 (List.mem_map_of_mem Inst.ref hn) hmem
      rw [checkForest_frame is _ n.ref hnot]
      exact ih1 hnd.1 n hn
    · exact ih2' hnd.2.1 n hn

/-- C4: after `check_has_scripts` has run over a tree with pairwise-distinct
referents (as `WeakDom` guarantees), every node — leaves included — has an
entry in the containment map, and the entry equals
`is_script_class(node) ||` (OR over the children's subtree values), i.e. it
is `true` iff the node itself or some descendant has a script class. -/
theorem check_has_scripts_populates (t : Inst) (h : (refsOf t).Nodup) :
    ∀ n ∈ allNodes t,
      (check_has_scripts t CMap.empty).2 n.ref
        = some (isScriptClass n.className || forestHasScripts n.children) := by
  intro n hn
  have hmain := check_map_spec t CMap.empty h n hn
  cases n with
  | mk r c nm pr cs => simpa [subtreeHasScripts] using hmain

/-- Witness for C4 on a concrete three-node tree. -/
theorem check_has_scripts_populates_witness :
    (check_has_scripts
        (.mk 0 "Folder" "F" [] [.mk 1 "Script" "S" [] [], .mk 2 "Part" "P" [] []])
        CMap.empty).2 (Inst.mk 2 "Part" "P" [] []).ref
      = some (isScriptClass (Inst.mk 2 "Part" "P" [] []).className
          || forestHasScripts (Inst.mk 2 "Part" "P" [] []).children) :=
  check_has_scripts_populates
    (.mk 0 "Folder" "F" [] [.mk 1 "Script" "S" [] [], .mk 2 "Part" "P" [] []])
    (by decide)
    (.mk 2 "Part" "P" [] [])
    (List.Mem.tail _ (List.Mem.tail _ (List.Mem.head _)))

/-! ### Resolver lemmas -/

theorem length_filter_eq_iff {α : Type} (l : List α) (p : α → Bool) :
    (l.filter p).length = l.length ↔ ∀ a ∈ l, p a := by
  constructor
  · intro h
    exact List.filter_eq_self.mp ((List.filter_sublist l).eq_of_length h)
  · intro h
    rw [List.filter_eq_self.mpr h]

/-- C5: for a script-class node with at least one child, the resolver emits
the directory, the `init<ext>.lua` source file, and an `init.meta.json`
sidecar exactly when not every direct child's subtree contains a script
(zero or partial script children); when every child's subtree contains a
script, no meta file is emitted. -/
theorem script_meta_omission (cfg : Config) (base : List String) (child : Inst)
    (hs : CMap) (mode : ExportMode)
    (hscript : isScriptClass child.className = true)
    (hne : child.children ≠ []) :
    ((∀ c ∈ child.children, hs c.ref = some true) →
      repr_instance cfg base child hs mode
        = .ok (some ⟨[.createFolder (sanitized_join base child.name),
                      .createFile (sanitized_join base child.name
                          ++ ["init" ++ scriptExtension child.className ++ ".lua"])
                        (.bytes (sourceOf child))],
                     sanitized_join base child.name, .normal⟩)) ∧
    ((¬ ∀ c ∈ child.children, hs c.ref = some true) →
      repr_instance cfg base child hs mode
        = .ok (some ⟨[.createFolder (sanitized_join base child.name),
                      .createFile (sanitized_join base child.name
                          ++ ["init" ++ scriptExtension child.className ++ ".lua"])
                        (.bytes (sourceOf child)),
                      .createFile (sanitized_join base child.name ++ ["init.meta.json"])
                        (.metaJson defaultMeta)],
                     sanitized_join base child.name, .normal⟩)) := by
  have hfol : ¬(child.className = "Folder") := by
    intro h
    rw [h] at hscript
    exact absurd hscript (by decide)
  have hie : ¬(child.children.isEmpty = true) := by
    simpa [List.isEmpty_iff] using hne
  constructor
  · intro hall
    have hcnt : (child.children.filter (fun c => hs c.ref == some true)).length
        = child.children.length := by
      apply (length_filter_eq_iff _ _).mpr
      intro a ha
      simp [hall a ha]
    simp only [repr_instance]
    rw [if_neg hfol, if_pos hscript, if_neg hie, if_pos hcnt]
  · intro hnall
    have hcnt : ¬((child.children.filter (fun c => hs c.ref == some true)).length
        = child.children.length) := by
      intro h
      apply hnall
      intro c hc
      have := (length_filter_eq_iff _ _).mp h c hc
      simpa using this
    simp only [repr_instance]
    rw [if_neg hfol, if_pos hscript, if_neg hie, if_neg hcnt, ite_self]

/-- Witness for C5 at a script node with one non-script child (partial case:
the meta sidecar is emitted). -/
theorem script_meta_omission_witness :
    repr_instance ⟨some (fun _ => none), fun _ => false, fun _ => false, fun _ => some []⟩
        [] (.mk 0 "Script" "S" [] [.mk 1 "Part" "P" [] []])
        (fun r => if r = 1 then some false else some true) .full
      = .ok (some ⟨[.createFolder ["S"],
                    .createFile ["S", "init.server.luau.lua"] (.bytes ""),
                    .createFile ["S", "init.meta.json"] (.metaJson defaultMeta)],
                   ["S"], .normal⟩) :=
  (script_meta_omission
    ⟨some (fun _ => none), fun _ => false, fun _ => false, fun _ => some []⟩
    [] (.mk 0 "Script" "S" [] [.mk 1 "Part" "P" [] []])
    (fun r => if r = 1 then some false else some true) .full
    (by decide) (by simp)).2
    (by
      intro hall
      exact absurd (hall (.mk 1 "Part" "P" [] []) (List.Mem.head _)) (by decide))

/-- C1 counterexample: a concrete `Model` node whose subtree contains a
script, resolved in Full mode with a failing codec. The claim asserts the
resolver still returns a representation carrying the node's `CreateFolder`;
in fact `repr_instance` propagates the codec failure with `?` (lib.rs:362)
and returns no representation at all. -/
theorem repr_codec_failure_counterexample :
    ¬ ∃ rep : NodeRepresentation,
        repr_instance ⟨some (fun _ => none), fun _ => false, fun _ => false, fun _ => none⟩
            [] (.mk 0 "Model" "M" [] [.mk 1 "Script" "S" [] []])
            (fun _ => some true) .full
          = Except.ok (some rep) := by
  intro ⟨rep, h⟩
  have h0 : repr_instance
      ⟨some (fun _ => none), fun _ => false, fun _ => false, fun _ => none⟩
      [] (.mk 0 "Model" "M" [] [.mk 1 "Script" "S" [] []])
      (fun _ => some true) .full = Except.ok none := rfl
  rw [h0] at h
  simp at h

/-- C1 (amended): for a non-folder, non-script, non-service node whose
subtree contains a script, resolved in Full mode: if the codec fails to
encode the script-excised subtree, the resolver returns `Except.ok none` —
the node is dropped entirely (its `CreateFolder` included) with the failure
logged, and the run continues without aborting. -/
theorem repr_codec_failure_drops_node (cfg : Config) (db : ReflDb)
    (base : List String) (child : Inst) (hs : CMap)
    (hdb : cfg.db = some db)
    (hfol : ¬(child.className = "Folder"))
    (hscr : isScriptClass child.className = false)
    (hsvc : ∀ r, db child.className = some r → r.isService = false)
    (hcs : (hs child.ref).getD false = true)
    (hfail : serialize_instance_to_rbxm cfg child = none) :
    repr_instance cfg base child hs .full = .ok none := by
  have hgen : repr_generic cfg base child ((hs child.ref).getD false) .full = none := by
    rw [hcs]
    simp [repr_generic, hfail]
  simp only [repr_instance]
  rw [if_neg hfol, if_neg (by simp [hscr]), hdb]
  dsimp only
  cases hdbc : db child.className with
  | none =>
    dsimp only
    rw [hgen]
  | some r =>
    dsimp only
    rw [if_neg (by simp [hsvc r hdbc]), hgen]

/-- Witness for the amended C1 at a concrete node with a failing codec. -/
theorem repr_codec_failure_drops_node_witness :
    repr_instance ⟨some (fun _ => none), fun _ => false, fun _ => false, fun _ => none⟩
        [] (.mk 2 "Model" "M2" [] [.mk 3 "LocalScript" "L" [] []])
        (fun _ => some true) .full = .ok none :=
  repr_codec_failure_drops_node
    ⟨some (fun _ => none), fun _ => false, fun _ => false, fun _ => none⟩
    (fun _ => none) []
    (.mk 2 "Model" "M2" [] [.mk 3 "LocalScript" "L" [] []])
    (fun _ => some true)
    rfl (by decide) (by decide) (fun r h => Option.noConfusion h) rfl rfl

/-- C2 counterexample: with the reflection lookup unavailable, the resolver's
generic-class dispatch does not degrade to "not a service" — it panics
(`.expect`, lib.rs:310), so the run aborts on the very first generic node. -/
theorem reflection_unavailable_counterexample :
    repr_instance ⟨none, fun _ => false, fun _ => false, fun _ => some []⟩
        [] (.mk 0 "Part" "P" [] []) (fun _ => some false) .full
      = .error "couldn't get reflection database" := rfl

/-- C2 (amended): when the reflection lookup is unavailable, the walker's
skip check (`should_skip_service`) treats every class as not a service with
a logged warning and does not abort; the resolver's generic-class dispatch,
by contrast, panics (aborts the run) instead of degrading. -/
theorem reflection_unavailable_behaviour (cfg : Config) (base : List String)
    (child : Inst) (hs : CMap) (mode : ExportMode)
    (hdb : cfg.db = none)
    (hfol : ¬(child.className = "Folder"))
    (hscr : isScriptClass child.className = false) :
    should_skip_service cfg child.className = false ∧
    repr_instance cfg base child hs mode = .error "couldn't get reflection database" := by
  constructor
  · simp [should_skip_service, hdb]
  · simp only [repr_instance]
    rw [if_neg hfol, if_neg (by simp [hscr]), hdb]

/-- Witness for the amended C2 at a concrete generic node. -/
theorem reflection_unavailable_behaviour_witness :
    should_skip_service ⟨none, fun _ => false, fun _ => false, fun _ => some []⟩
        (Inst.mk 7 "Part" "Q" [] []).className = false ∧
    repr_instance ⟨none, fun _ => false, fun _ => false, fun _ => some []⟩
        [] (.mk 7 "Part" "Q" [] []) (fun _ => some false) .scriptsOnly
      = .error "couldn't get reflection database" :=
  reflection_unavailable_behaviour
    ⟨none, fun _ => false, fun _ => false, fun _ => some []⟩
    [] (.mk 7 "Part" "Q" [] []) (fun _ => some false) .scriptsOnly
    rfl (by decide) (by decide)

/-! ### Walker lemmas -/

/-- C7 counterexample: `Lighting` is service-tagged and not respected, yet
when the walker reaches it with the sticky scripts-only flag set and its
subtree contains a script, the sticky-recursion guard (lib.rs:396-410) fires
before the service skip (lib.rs:412): the walker recurses into `Lighting`
and emits its descendant script file, contradicting "zero instructions and
zero recursion … regardless of whether the sticky scripts-only flag is
set". -/
theorem service_skip_counterexample :
    should_skip_service
        ⟨some (fun c => if c = "Lighting" then some ⟨true⟩ else none),
         fun _ => false, fun _ => false, fun _ => some []⟩ "Lighting" = true ∧
    visitChild
        ⟨some (fun c => if c = "Lighting" then some ⟨true⟩ else none),
         fun _ => false, fun _ => false, fun _ => some []⟩
        [] .full (fun _ => some true)
        (.mk 0 "Lighting" "Lighting" [] [.mk 1 "Script" "S" [] []]) true
      ≠ .ok [] := by
  constructor
  · rfl
  · intro h
    have h0 : visitChild
        ⟨some (fun c => if c = "Lighting" then some ⟨true⟩ else none),
         fun _ => false, fun _ => false, fun _ => some []⟩
        [] .full (fun _ => some true)
        (.mk 0 "Lighting" "Lighting" [] [.mk 1 "Script" "S" [] []]) true
      = .ok [.createFile ["Lighting", "S.server.luau"] (.bytes "")] := rfl
    rw [h0] at h
    simp at h

/-- C7 (amended): a node whose class the metadata lookup tags as a service
outside the respected allow-list is skipped by the walker — zero
instructions, zero recursion — whenever the sticky scripts-only flag is
unset, or its subtree contains no script; with the sticky flag set on a
script-containing subtree the walker instead recurses into it (emitting
nothing for the node itself, see the counterexample). -/
theorem service_skip (cfg : Config) (path : List String) (mode : ExportMode)
    (hs : CMap) (child : Inst) (scripts_only : Bool)
    (hskip : should_skip_service cfg child.className = true)
    (hcase : scripts_only = false ∨ (hs child.ref).getD false = false) :
    visitChild cfg path mode hs child scripts_only = .ok [] := by
  simp only [visitChild]
  by_cases h1 : (decide (mode = ExportMode.scriptsOnly) && !(hs child.ref).getD false) = true
  · rw [if_pos h1]
  · rw [if_neg h1]
    by_cases h2 : (scripts_only && !(isScriptClass child.className)) = true
    · rw [if_pos h2]
      rcases hcase with hso | hsf
      · rw [hso] at h2
        simp at h2
      · rw [if_neg (by simp [hsf])]
    · rw [if_neg h2, if_pos hskip]

/-- Witness for the amended C7: the same `Lighting` node, reached without the
sticky flag, produces nothing. -/
theorem service_skip_witness :
    visitChild
        ⟨some (fun c => if c = "Lighting" then some ⟨true⟩ else none),
         fun _ => false, fun _ => false, fun _ => some []⟩
        [] .full (fun _ => some true)
        (.mk 0 "Lighting" "Lighting" [] [.mk 1 "Script" "S" [] []]) false
      = .ok [] :=
  service_skip
    ⟨some (fun c => if c = "Lighting" then some ⟨true⟩ else none),
     fun _ => false, fun _ => false, fun _ => some []⟩
    [] .full (fun _ => some true)
    (.mk 0 "Lighting" "Lighting" [] [.mk 1 "Script" "S" [] []]) false
    rfl (Or.inl rfl)

/-- C8: a `StarterPlayer` node reached by the walker (sticky flag unset, and
not pruned by the ScriptsOnly containment guard) — provided the
service-skip check, which the code runs first (lib.rs:412), lets it through
— always produces a `CreateFolder` for its sanitized path, then an
`AddToTree` whose partition has `path = None` and exactly one child
partition per direct child, each built by the partition-construction rule
under the folder; traversal then continues into its children with the
parent's flag (Normal). -/
theorem starter_player_special (cfg : Config) (path : List String)
    (mode : ExportMode) (hs : CMap) (child : Inst) (tail : List Instruction)
    (hcls : child.className = "StarterPlayer")
    (hskip : should_skip_service cfg child.className = false)
    (hmode : mode = .full ∨ (hs child.ref).getD false = true)
    (htail : visit_instructions cfg (sanitized_join path child.name) mode hs child false
        = .ok tail) :
    visitChild cfg path mode hs child false
      = .ok ([.createFolder (sanitized_join path child.name),
              .addToTree child.name
                (.mk child.className
                  (child.children.map (fun c =>
                    (c.name, Instruction.partitionOf c
                      (sanitized_join (sanitized_join path child.name) c.name))))
                  true none)] ++ tail) := by
  have h1 : ¬((decide (mode = ExportMode.scriptsOnly) && !(hs child.ref).getD false) = true) := by
    rcases hmode with rfl | hcs
    · simp
    · simp [hcs]
  simp only [visitChild]
  rw [if_neg h1, if_neg (by simp), if_neg (by simp [hskip]), if_pos hcls]
  dsimp only [starterPlayerRep]
  rw [htail]

/-- Witness for C8: `StarterPlayer` with a script child `A` and a non-script
child `B` yields the folder, an `AddToTree` with exactly the two child
partitions `A` and `B`, then the recursion's own instructions. -/
theorem starter_player_special_witness :
    visitChild
        ⟨some (fun c => if c = "StarterPlayer" then some ⟨true⟩ else none),
         fun c => c = "StarterPlayer", fun _ => false, fun _ => some []⟩
        [] .full (fun r => if r = 2 then some false else some true)
        (.mk 0 "StarterPlayer" "StarterPlayer" []
          [.mk 1 "Script" "A" [("Source", .str "x")] [], .mk 2 "Part" "B" [] []]) false
      = .ok ([.createFolder ["StarterPlayer"],
              .addToTree "StarterPlayer"
                (.mk "StarterPlayer"
                  [("A", .mk "Script" [] true (some ["StarterPlayer", "A"])),
                   ("B", .mk "Part" [] true (some ["StarterPlayer", "B"]))]
                  true none)] ++
             [.createFile ["StarterPlayer", "A.server.luau"] (.bytes "x"),
              .createFolder ["StarterPlayer", "B"]]) :=
  starter_player_special
    ⟨some (fun c => if c = "StarterPlayer" then some ⟨true⟩ else none),
     fun c => c = "StarterPlayer", fun _ => false, fun _ => some []⟩
    [] .full (fun r => if r = 2 then some false else some true)
    (.mk 0 "StarterPlayer" "StarterPlayer" []
      [.mk 1 "Script" "A" [("Source", .str "x")] [], .mk 2 "Part" "B" [] []])
    [.createFile ["StarterPlayer", "A.server.luau"] (.bytes "x"),
     .createFolder ["StarterPlayer", "B"]]
    rfl rfl (Or.inl rfl) rfl

/-! ### Filesystem sink lemmas -/

@[simp] theorem TreePartition.classNameOf_mk (c : String)
    (ch : List (String × TreePartition)) (ig : Bool) (p : Option (List String)) :
    (TreePartition.mk c ch ig p).className = c := rfl

@[simp] theorem TreePartition.childrenOf_mk (c : String)
    (ch : List (String × TreePartition)) (ig : Bool) (p : Option (List String)) :
    (TreePartition.mk c ch ig p).children = ch := rfl

@[simp] theorem TreePartition.ignore_mk (c : String)
    (ch : List (String × TreePartition)) (ig : Bool) (p : Option (List String)) :
    (TreePartition.mk c ch ig p).ignoreUnknownInstances = ig := rfl

@[simp] theorem TreePartition.path_mk (c : String)
    (ch : List (String × TreePartition)) (ig : Bool) (p : Option (List String)) :
    (TreePartition.mk c ch ig p).path = p := rfl

theorem natToDigits_eq_digits (fuel : Nat) : ∀ (n : Nat) (acc : List Char),
    1 ≤ n → n ≤ fuel →
    natToDigits fuel n acc = ((Nat.digits 10 n).map Nat.digitChar).reverse ++ acc := by
  induction fuel with
  | zero => intro n acc h1 h2; omega
  | succ f ih =>
    intro n acc h1 h2
    simp only [natToDigits]
    by_cases hlt : n < 10
    · rw [if_pos hlt]
      have hd : Nat.digits 10 n = [n] := by
        rw [Nat.digits_def' (by norm_num) h1, Nat.mod_eq_of_lt hlt, Nat.div_eq_of_lt hlt]
        simp
      rw [hd, Nat.mod_eq_of_lt hlt]
      simp
    · rw [if_neg hlt]
      push_neg at hlt
      have h10 : 1 ≤ n / 10 := (Nat.one_le_div_iff (by norm_num)).mpr hlt
      have hle : n / 10 ≤ f := by
        have : n / 10 < n := Nat.div_lt_self (by omega) (by norm_num)
        omega
      rw [Nat.digits_def' (b := 10) (n := n) (by norm_num) (by omega),
        ih (n / 10) _ h10 hle]
      simp only [List.map_cons, List.reverse_cons, List.append_assoc,
        List.singleton_append]

theorem natRepr_pos_eq (n : Nat) (h : 1 ≤ n) :
    natRepr n = String.mk (((Nat.digits 10 n).map Nat.digitChar).reverse) := by
  unfold natRepr
  rw [natToDigits_eq_digits (n + 1) n [] h (by omega)]
  simp

theorem digitChar_inj_lt : ∀ a < 10, ∀ b < 10,
    Nat.digitChar a = Nat.digitChar b → a = b := by decide

theorem map_digitChar_inj : ∀ (l1 l2 : List Nat), (∀ a ∈ l1, a < 10) → (∀ a ∈ l2, a < 10) →
    l1.map Nat.digitChar = l2.map Nat.digitChar → l1 = l2 := by
  intro l1
  induction l1 with
  | nil =>
    intro l2 _ _ h
    cases l2 with
    | nil => rfl
    | cons b bs => simp at h
  | cons a as ih =>
    intro l2 h1 h2 h
    cases l2 with
    | nil => simp at h
    | cons b bs =>
      simp only [List.map_cons, List.cons.injEq] at h
      have ha : a = b :=
        digitChar_inj_lt a (h1 a (List.mem_cons_self a as)) b
          (h2 b (List.mem_cons_self b bs)) h.1
      have hrest := ih bs (fun x hx => h1 x (List.mem_cons_of_mem a hx))
        (fun x hx => h2 x (List.mem_cons_of_mem b hx)) h.2
      rw [ha, hrest]

theorem natRepr_zero_ne_pos (n : Nat) (h : 1 ≤ n) : natRepr 0 ≠ natRepr n := by
  intro he
  rw [natRepr_pos_eq n h] at he
  have hd := congrArg String.data he
  simp only [natRepr, natToDigits] at hd
  have : ['0'] = ((Nat.digits 10 n).map Nat.digitChar).reverse := by simpa using hd
  have hmap : (Nat.digits 10 n).map Nat.digitChar = ['0'] := by
    have := congrArg List.reverse this
    simpa using this.symm
  cases hds : Nat.digits 10 n with
  | nil => rw [hds] at hmap; simp at hmap
  | cons d ds =>
    rw [hds] at hmap
    cases ds with
    | cons e es => simp at hmap
    | nil =>
      simp only [List.map_cons, List.map_nil, List.cons.injEq] at hmap
      have hdlt : d < 10 := Nat.digits_lt_base (by norm_num) (hds ▸ List.mem_cons_self d [])
      have hd0 : d = 0 := digitChar_inj_lt d hdlt 0 (by norm_num) (by simpa using hmap.1)
      have := Nat.ofDigits_digits 10 n
      rw [hds, hd0] at this
      simp [Nat.ofDigits] at this
      omega

theorem natRepr_injective : Function.Injective natRepr := by
  intro m n h
  rcases Nat.eq_zero_or_pos m with rfl | hm
  · rcases Nat.eq_zero_or_pos n with rfl | hn
    · rfl
    · exact absurd h (natRepr_zero_ne_pos n hn)
  · rcases Nat.eq_zero_or_pos n with rfl | hn
    · exact absurd h.symm (natRepr_zero_ne_pos m hm)
    · rw [natRepr_pos_eq m hm, natRepr_pos_eq n hn] at h
      have hd := congrArg String.data h
      simp only [] at hd
      have hrev : ((Nat.digits 10 m).map Nat.digitChar).reverse
          = ((Nat.digits 10 n).map Nat.digitChar).reverse := hd
      have hmap := List.reverse_injective hrev
      have hdig := map_digitChar_inj _ _
        (fun a ha => Nat.digits_lt_base (by norm_num) ha)
        (fun a ha => Nat.digits_lt_base (by norm_num) ha) hmap
      have h1 := Nat.ofDigits_digits 10 m
      have h2 := Nat.ofDigits_digits 10 n
      rw [← h1, ← h2, hdig]

theorem candidateName_inj (orig : String) : ∀ j k : Nat,
    candidateName orig j = candidateName orig k → j = k := by
  intro j k h
  apply natRepr_injective
  unfold candidateName at h
  have hd := congrArg String.data h
  simp only [String.data_append] at hd
  have hAB : (natRepr j).data = (natRepr k).data := List.append_cancel_left hd
  calc natRepr j = String.mk (natRepr j).data := rfl
    _ = String.mk (natRepr k).data := by rw [hAB]
    _ = natRepr k := rfl

theorem containsKey_iff (t : ProjTree) (k : String) :
    ProjTree.containsKey t k = true ↔ k ∈ t.map Prod.fst := by
  unfold ProjTree.containsKey
  rw [List.any_eq_true]
  constructor
  · rintro ⟨kv, hkv, he⟩
    exact List.mem_map.mpr ⟨kv, hkv, of_decide_eq_true he⟩
  · intro hm
    obtain ⟨kv, hkv, rfl⟩ := List.mem_map.mp hm
    exact ⟨kv, hkv, by simp⟩

/-- Among the candidates `name_2 … name_(2+len)` at least one is not a key:
a list of `len` entries cannot contain `len + 1` pairwise-distinct keys. -/
theorem exists_free_candidate (t : ProjTree) (orig : String) :
    ∃ j, 2 ≤ j ∧ j ≤ 2 + t.length ∧
      ProjTree.containsKey t (candidateName orig j) = false := by
  by_contra hcon
  push_neg at hcon
  have hall : ∀ i ∈ List.range (t.length + 1),
      ProjTree.containsKey t (candidateName orig (i + 2)) = true := by
    intro i hi
    rw [List.mem_range] at hi
    have := hcon (i + 2) (by omega) (by omega)
    revert this
    cases ProjTree.containsKey t (candidateName orig (i + 2)) <;> simp
  have hinj : Function.Injective (fun i => candidateName orig (i + 2)) := by
    intro a b hab
    have := candidateName_inj orig (a + 2) (b + 2) hab
    omega
  have hnodup : ((List.range (t.length + 1)).map
      (fun i => candidateName orig (i + 2))).Nodup :=
    (List.nodup_range (t.length + 1)).map hinj
  have hsub : ((List.range (t.length + 1)).map (fun i => candidateName orig (i + 2)))
      ⊆ t.map Prod.fst := by
    intro x hx
    obtain ⟨i, hi, rfl⟩ := List.mem_map.mp hx
    exact (containsKey_iff t _).mp (hall i hi)
  have hlen := (hnodup.subperm hsub).length_le
  simp at hlen

/-- The collision loop returns the first free counter, and with fuel
`t.length` it never runs out (by `exists_free_candidate`). -/
theorem freshCounterAux_found (t : ProjTree) (orig : String) : ∀ (fuel k : Nat),
    (∃ j, k ≤ j ∧ j ≤ k + fuel ∧
      ProjTree.containsKey t (candidateName orig j) = false) →
    k ≤ freshCounterAux t orig fuel k ∧
    ProjTree.containsKey t (candidateName orig (freshCounterAux t orig fuel k)) = false ∧
    ∀ j, k ≤ j → j < freshCounterAux t orig fuel k →
      ProjTree.containsKey t (candidateName orig j) = true := by
  intro fuel
  induction fuel with
  | zero =>
    rintro k ⟨j, hj1, hj2, hj3⟩
    have hjk : j = k := by omega
    subst hjk
    simp only [freshCounterAux]
    exact ⟨le_refl _, hj3, fun j2 ha hb => absurd ha (by omega)⟩
  | succ f ih =>
    rintro k ⟨j, hj1, hj2, hj3⟩
    simp only [freshCounterAux]
    by_cases hk : ProjTree.containsKey t (candidateName orig k) = true
    · rw [if_pos hk]
      have hjne : j ≠ k := by
        intro he
        subst he
        rw [hj3] at hk
        cases hk
      obtain ⟨ha, hb, hc⟩ := ih (k + 1) ⟨j, by omega, by omega, hj3⟩
      refine ⟨by omega, hb, ?_⟩
      intro j2 h1 h2
      rcases Nat.eq_or_lt_of_le h1 with rfl | hlt
      · exact hk
      · exact hc j2 (by omega) h2
    · rw [if_neg hk]
      have hkf : ProjTree.containsKey t (candidateName orig k) = false := by
        revert hk
        cases ProjTree.containsKey t (candidateName orig k) <;> simp
      exact ⟨le_refl _, hkf, fun j2 ha hb => absurd ha (by omega)⟩

theorem freshCounter_spec (t : ProjTree) (orig : String) :
    2 ≤ freshCounter t orig ∧
    ProjTree.containsKey t (candidateName orig (freshCounter t orig)) = false ∧
    ∀ j, 2 ≤ j → j < freshCounter t orig →
      ProjTree.containsKey t (candidateName orig j) = true := by
  obtain ⟨j, hj1, hj2, hj3⟩ := exists_free_candidate t orig
  exact freshCounterAux_found t orig t.length 2 ⟨j, hj1, by omega, hj3⟩

@[simp] theorem TreePartition.withPath_mk (c : String)
    (ch : List (String × TreePartition)) (ig : Bool) (p q : Option (List String)) :
    (TreePartition.mk c ch ig p).withPath q = .mk c ch ig q := rfl

@[simp] theorem TreePartition.prefixChildren_mk (c : String)
    (ch : List (String × TreePartition)) (ig : Bool) (p : Option (List String)) :
    (TreePartition.mk c ch ig p).prefixChildren
      = .mk c (ch.map (fun kv => (kv.1, kv.2.withPath (srcPrefix kv.2.path)))) ig p := rfl

@[simp] theorem srcPrefix_none : srcPrefix none = none := rfl

@[simp] theorem srcPrefix_some (p : List String) : srcPrefix (some p) = some (SRC :: p) := rfl

theorem replaceLastComponent_eq (p : List String) (s : String) :
    replaceLastComponent p s = p.dropLast ++ [s] := by
  cases p <;> rfl

/-- C6: when the sink's `AddToTree` arm receives a name already present
among the manifest's top-level entries, the existing entries are all kept
unchanged (the new pair is appended, so no lookup of an old key changes);
the new entry is keyed by the first free name among `name_2, name_3, …`;
an explicit incoming path has only its final component rewritten to the
disambiguated name (parent directory kept); and the finalized entry's path
and the explicit paths of its direct children are prefixed with the fixed
source subdirectory `src`. -/
theorem fs_collision_law (t : ProjTree) (name : String) (partition : TreePartition)
    (hcol : ProjTree.containsKey t name = true) :
    ∃ part : TreePartition,
      2 ≤ freshCounter t name ∧
      ProjTree.containsKey t (candidateName name (freshCounter t name)) = false ∧
      (∀ j, 2 ≤ j → j < freshCounter t name →
        ProjTree.containsKey t (candidateName name j) = true) ∧
      fsAddToTree t name partition
        = t ++ [(candidateName name (freshCounter t name), part)] ∧
      part.className = partition.className ∧
      part.ignoreUnknownInstances = partition.ignoreUnknownInstances ∧
      part.children = partition.children.map
        (fun kv => (kv.1, kv.2.withPath (srcPrefix kv.2.path))) ∧
      (∀ p, partition.path = some p →
        part.path = some (SRC :: (p.dropLast
          ++ [candidateName name (freshCounter t name)]))) ∧
      (partition.path = none → part.path = none) := by
  obtain ⟨h2, hfree, hfirst⟩ := freshCounter_spec t name
  rcases partition with ⟨c, ch, ig, pa⟩
  cases pa with
  | none =>
    refine ⟨.mk c (ch.map (fun kv => (kv.1, kv.2.withPath (srcPrefix kv.2.path)))) ig none,
      h2, hfree, hfirst, ?_, by simp, by simp, by simp, ?_, fun _ => by simp⟩
    · simp only [fsAddToTree, ProjTree.insert, hcol, hfree, TreePartition.path_mk,
        TreePartition.withPath_mk, TreePartition.prefixChildren_mk, srcPrefix_none,
        if_true, Bool.false_eq_true, if_false]
    · intro p hp
      cases hp
  | some p0 =>
    refine ⟨.mk c (ch.map (fun kv => (kv.1, kv.2.withPath (srcPrefix kv.2.path)))) ig
        (some (SRC :: (p0.dropLast ++ [candidateName name (freshCounter t name)]))),
      h2, hfree, hfirst, ?_, by simp, by simp, by simp, ?_, ?_⟩
    · simp only [fsAddToTree, ProjTree.insert, hcol, hfree, TreePartition.path_mk,
        TreePartition.withPath_mk, TreePartition.prefixChildren_mk, srcPrefix_some,
        replaceLastComponent_eq, if_true, Bool.false_eq_true, if_false]
    · intro p hp
      cases hp
      simp
    · intro hp
      cases hp

/-- Witness for C6: inserting `"X"` into a manifest already holding `"X"` and
`"X_2"` lands on `X_3`, preserves both old entries, rewrites the path tail
and `src`-prefixes paths. -/
theorem fs_collision_law_witness :
    ∃ part : TreePartition,
      2 ≤ freshCounter
          [("X", .mk "A" [] true none), ("X_2", .mk "B" [] true none)] "X" ∧
      ProjTree.containsKey
          [("X", .mk "A" [] true none), ("X_2", .mk "B" [] true none)]
          (candidateName "X" (freshCounter
            [("X", .mk "A" [] true none), ("X_2", .mk "B" [] true none)] "X")) = false ∧
      (∀ j, 2 ≤ j → j < freshCounter
          [("X", .mk "A" [] true none), ("X_2", .mk "B" [] true none)] "X" →
        ProjTree.containsKey
          [("X", .mk "A" [] true none), ("X_2", .mk "B" [] true none)]
          (candidateName "X" j) = true) ∧
      fsAddToTree [("X", .mk "A" [] true none), ("X_2", .mk "B" [] true none)] "X"
          (.mk "Folder" [("K", .mk "KC" [] true (some ["kp"]))] true (some ["old", "X"]))
        = [("X", .mk "A" [] true none), ("X_2", .mk "B" [] true none)]
          ++ [(candidateName "X" (freshCounter
                [("X", .mk "A" [] true none), ("X_2", .mk "B" [] true none)] "X"), part)] ∧
      part.className
        = (TreePartition.mk "Folder" [("K", .mk "KC" [] true (some ["kp"]))] true
            (some ["old", "X"])).className ∧
      part.ignoreUnknownInstances
        = (TreePartition.mk "Folder" [("K", .mk "KC" [] true (some ["kp"]))] true
            (some ["old", "X"])).ignoreUnknownInstances ∧
      part.children
        = (TreePartition.mk "Folder" [("K", .mk "KC" [] true (some ["kp"]))] true
            (some ["old", "X"])).children.map
            (fun kv => (kv.1, kv.2.withPath (srcPrefix kv.2.path))) ∧
      (∀ p, (TreePartition.mk "Folder" [("K", .mk "KC" [] true (some ["kp"]))] true
            (some ["old", "X"])).path = some p →
        part.path = some (SRC :: (p.dropLast
          ++ [candidateName "X" (freshCounter
                [("X", .mk "A" [] true none), ("X_2", .mk "B" [] true none)] "X")]))) ∧
      ((TreePartition.mk "Folder" [("K", .mk "KC" [] true (some ["kp"]))] true
            (some ["old", "X"])).path = none → part.path = none) :=
  fs_collision_law
    [("X", .mk "A" [] true none), ("X_2", .mk "B" [] true none)] "X"
    (.mk "Folder" [("K", .mk "KC" [] true (some ["kp"]))] true (some ["old", "X"]))
    rfl

/-! ### Pipeline determinism -/

/-- C9: the full pipeline — containment analysis followed by instruction
emission — is a pure function of the input tree, the configuration and the
export mode: two runs on the same inputs produce the same instruction
stream, and folding the two streams into the sink's manifest produces the
same manifest. (The embedding has no hidden state; the property rules out
any dependence on unordered iteration.) -/
theorem pipeline_deterministic (cfg : Config) (tree : Inst) (mode : ExportMode)
    (out1 out2 : Except String (List Instruction))
    (h1 : process_instructions cfg tree mode = out1)
    (h2 : process_instructions cfg tree mode = out2) :
    out1 = out2 ∧ out1.map (fsReadAll []) = out2.map (fsReadAll []) := by
  subst h1
  subst h2
  exact ⟨rfl, rfl⟩

/-- Witness for C9 on a concrete two-node tree. -/
theorem pipeline_deterministic_witness :
    (Except.ok (ε := String)
        [Instruction.createFile ["Main.server.luau"] (.bytes "hi")]
      = Except.ok [Instruction.createFile ["Main.server.luau"] (.bytes "hi")]) ∧
    (Except.ok (ε := String)
        [Instruction.createFile ["Main.server.luau"] (.bytes "hi")]).map (fsReadAll [])
      = (Except.ok [Instruction.createFile ["Main.server.luau"] (.bytes "hi")]).map
          (fsReadAll []) :=
  pipeline_deterministic
    ⟨some (fun _ => none), fun _ => false, fun _ => false, fun _ => some []⟩
    (.mk 0 "DataModel" "root" [] [.mk 1 "Script" "Main" [("Source", .str "hi")] []])
    .full
    (.ok [.createFile ["Main.server.luau"] (.bytes "hi")])
    (.ok [.createFile ["Main.server.luau"] (.bytes "hi")])
    rfl rfl
